import Mathlib

/-!
Verification development for the PayloadExchange sponsored settlement engine
(repository `paymeskill`). The repository ships the SQL migrations, the
operator documentation and the React dashboard; the Rust engine itself
(`axum` service with the in-memory `RwLock` ledger) is not part of the
source tree here, so the engine's operations are modelled from the design
specification and the dashboard computation is translated from
`frontend/src/App.tsx`.
-/

namespace PayloadExchange

/-- Payment source, per the `payments` migration check constraint
(`source in ('user', 'sponsor')`). -/
inductive Source
  | user
  | sponsor
deriving DecidableEq

/-- Payment status, per the `payments` migration check constraint
(`status in ('settled', 'failed')`). -/
inductive Status
  | settled
  | failed
deriving DecidableEq

/-- Modelled from the spec: the Campaign entity of §3 (the Rust struct is
missing from the source tree). Monetary amounts are integer minor units
(cents); `created_at` is an abstract timestamp. -/
structure Campaign where
  id : Nat
  name : String
  sponsor : String
  target_roles : List String
  target_tools : List String
  required_task : String
  subsidy_per_call_cents : Int
  budget_cents : Int
  budget_remaining_cents : Int
  active : Bool
  created_at : Nat
deriving DecidableEq

/-- Modelled from the spec: the Profile entity of §3 (missing Rust struct);
only the fields the engine reads. -/
structure Profile where
  id : Nat
  roles : List String
  tools_used : List String
deriving DecidableEq

/-- TaskCompletion row, after the `task_completions` migration: composite
key (campaign_id, user_id, task_name) plus details. -/
structure TaskCompletion where
  campaign_id : Nat
  user_id : Nat
  task_name : String
  details : String
deriving DecidableEq

/-- PaymentRecord row, after the `payments` migration: primary key is the
external transaction hash. -/
structure PaymentRecord where
  tx_hash : String
  campaign_id : Option Nat
  service : String
  amount_cents : Int
  payer : String
  source : Source
  status : Status
deriving DecidableEq

/-- Modelled from the spec: the ephemeral ChallengeToken of §3 (missing
Rust struct): service, amount due, expiry, single-use consumption flag. -/
structure ChallengeToken where
  tokenId : Nat
  service : String
  amount_cents : Int
  expiry : Nat
  consumed : Bool
deriving DecidableEq

/-- Campaign store lookup by identifier. -/
def getCampaign (l : List Campaign) (cid : Nat) : Option Campaign :=
  l.find? (fun c => c.id == cid)

/-- Result type of the ledger's guarded debit, per §4.1:
`debit_campaign(campaign_id, amount) -> Ok | InsufficientBudget | NotFound`. -/
inductive DebitResult
  | ok (campaigns : List Campaign)
  | insufficientBudget
  | notFound
deriving DecidableEq

/-- The guarded decrement applied to the store entry with the given id. -/
def debitUpdate (l : List Campaign) (cid : Nat) (amount : Int) : List Campaign :=
  l.map fun d =>
    if d.id == cid then
      { d with budget_remaining_cents := d.budget_remaining_cents - amount }
    else d

/-- Modelled from the spec: `debit_campaign` of §4.1 (missing Rust ledger
code). A guarded atomic decrement: it rejects with `InsufficientBudget`
rather than letting the remaining budget go negative. -/
def debit_campaign (l : List Campaign) (cid : Nat) (amount : Int) : DebitResult :=
  match getCampaign l cid with
  | none => .notFound
  | some c =>
      if amount ≤ c.budget_remaining_cents then .ok (debitUpdate l cid amount)
      else .insufficientBudget

/-- The per-campaign budget invariant of §3:
`0 ≤ remaining_budget ≤ total_budget`. -/
def campaignInv (c : Campaign) : Prop :=
  0 ≤ c.budget_remaining_cents ∧ c.budget_remaining_cents ≤ c.budget_cents

instance (c : Campaign) : Decidable (campaignInv c) := by
  unfold campaignInv; infer_instance

/-- Run a sequence of debit requests (campaign id, amount) through the
ledger, collecting the requests that succeeded; a rejected debit leaves the
store untouched. -/
def runDebits (l : List Campaign) : List (Nat × Int) → List Campaign × List (Nat × Int)
  | [] => (l, [])
  | op :: ops =>
      match debit_campaign l op.1 op.2 with
      | .ok l' =>
          let r := runDebits l' ops
          (r.1, op :: r.2)
      | _ => runDebits l ops

/-- Total amount the given campaign was charged by a list of debit
requests. -/
def sumFor (cid : Nat) : List (Nat × Int) → Int
  | [] => 0
  | op :: ops => (if op.1 == cid then op.2 else 0) + sumFor cid ops

/-- Task completion query, per §6: `has_completed(campaign_id, user_id,
task_name) -> bool`; presence of a matching row is the sole gating
predicate. -/
def has_completed (ts : List TaskCompletion) (cid uid : Nat) (task : String) : Bool :=
  ts.any fun t => t.campaign_id == cid && t.user_id == uid && t.task_name == task

/-- Modelled from the spec: `record_completion` of §6 (missing Rust handler
behind `POST /tasks/complete`), an idempotent upsert keyed on
(campaign_id, user_id, task_name). -/
def record_completion (ts : List TaskCompletion) (cid uid : Nat)
    (task details : String) : List TaskCompletion :=
  if has_completed ts cid uid task then ts
  else ⟨cid, uid, task, details⟩ :: ts

/-- Ineligibility reasons of §4.2, which must stay distinguishable. -/
inductive IneligibleReason
  | campaignInactive
  | toolMismatch
  | roleMismatch
  | taskIncomplete
  | budgetExhausted
deriving DecidableEq

/-- Result of the eligibility evaluator, per §4.2:
`evaluate(profile, campaign, service) -> Eligible | Ineligible(reason)`. -/
inductive EvalResult
  | eligible
  | ineligible (reason : IneligibleReason)
deriving DecidableEq

/-- Tool targeting check: the service is in `target_tools`, or the set is
empty (wildcard). -/
def toolMatch (c : Campaign) (service : String) : Bool :=
  c.target_tools.isEmpty || c.target_tools.contains service

/-- Role targeting check: `profile.roles ∩ campaign.target_roles` is
non-empty, or the set is empty (wildcard). -/
def roleMatch (p : Profile) (c : Campaign) : Bool :=
  c.target_roles.isEmpty || p.roles.any fun r => c.target_roles.contains r

/-- Modelled from the spec: the eligibility evaluator of §4.2 (missing Rust
code). Eligible iff the campaign is active, tool and role targeting match,
the gating task is completed, and the remaining budget covers one
subsidy. -/
def evaluate (ts : List TaskCompletion) (p : Profile) (c : Campaign)
    (service : String) : EvalResult :=
  if !c.active then .ineligible .campaignInactive
  else if !toolMatch c service then .ineligible .toolMismatch
  else if !roleMatch p c then .ineligible .roleMismatch
  else if !has_completed ts c.id p.id c.required_task then .ineligible .taskIncomplete
  else if c.budget_remaining_cents < c.subsidy_per_call_cents then .ineligible .budgetExhausted
  else .eligible

/-- The total order used by campaign selection: earliest creation timestamp
first, ties broken by identifier (§4.2, §9). -/
def keyLeb (c d : Campaign) : Bool :=
  decide (c.created_at < d.created_at) ||
    (decide (c.created_at = d.created_at) && decide (c.id ≤ d.id))

/-- Propositional form of the selection order. -/
def keyLe (c d : Campaign) : Prop :=
  c.created_at < d.created_at ∨ (c.created_at = d.created_at ∧ c.id ≤ d.id)

/-- Ordered insertion for the deterministic campaign scan. -/
def insertCampaign (c : Campaign) : List Campaign → List Campaign
  | [] => [c]
  | d :: ds => if keyLeb c d then c :: d :: ds else d :: insertCampaign c ds

/-- Modelled from the spec: the deterministic sorted scan order of §9
(the original Rust iterates a `HashMap` nondeterministically; the spec fixes
a total order by creation time, tie-broken by identifier). -/
def sortCampaigns : List Campaign → List Campaign
  | [] => []
  | c :: cs => insertCampaign c (sortCampaigns cs)

/-- Modelled from the spec: first-match campaign selection of §4.2 — the
first eligible campaign in the stable order by earliest creation
timestamp. -/
def selectCampaign (ts : List TaskCompletion) (p : Profile) (service : String)
    (cs : List Campaign) : Option Campaign :=
  (sortCampaigns cs).find? fun c => decide (evaluate ts p c service = .eligible)

/-- Outcome of `record_payment`, per §4.1:
`record_payment(record) -> Inserted | AlreadyRecorded`. -/
inductive RecordResult
  | inserted
  | alreadyRecorded
deriving DecidableEq

/-- The ledger: campaign budgets plus the payment record set (§2, owned
exclusively by the Ledger Store). -/
structure Ledger where
  campaigns : List Campaign
  payments : List PaymentRecord
deriving DecidableEq

/-- Does a payment record with the given transaction hash exist? -/
def hashExists (ps : List PaymentRecord) (h : String) : Bool :=
  ps.any fun p => p.tx_hash == h

/-- Status overwrite used by the failed→settled confirming update. -/
def setStatus (ps : List PaymentRecord) (h : String) (st : Status) : List PaymentRecord :=
  ps.map fun q => if q.tx_hash == h then { q with status := st } else q

/-- Modelled from the spec: `record_payment` of §4.1 (missing Rust ledger
code). Insertion is idempotent on the transaction hash; a hash collision
with a different status is a confirming update where the latest status
wins, and the budget side-effect of a failed→settled transition is applied
exactly once. -/
def record_payment (l : Ledger) (r : PaymentRecord) : RecordResult × Ledger :=
  match l.payments.find? (fun p => p.tx_hash == r.tx_hash) with
  | none => (.inserted, { l with payments := r :: l.payments })
  | some p =>
      if p.status = r.status then (.alreadyRecorded, l)
      else if p.status = .failed ∧ r.status = .settled then
        match r.campaign_id with
        | some cid =>
            match debit_campaign l.campaigns cid r.amount_cents with
            | .ok cs => (.alreadyRecorded,
                { campaigns := cs, payments := setStatus l.payments r.tx_hash r.status })
            | _ => (.alreadyRecorded,
                { l with payments := setStatus l.payments r.tx_hash r.status })
        | none => (.alreadyRecorded,
            { l with payments := setStatus l.payments r.tx_hash r.status })
      else (.alreadyRecorded,
        { l with payments := setStatus l.payments r.tx_hash r.status })

/-- A settlement event from the external feed, per §6:
`{tx_hash, campaign_id?, service, amount, payer, source, status}`. -/
structure SettlementEvent where
  tx_hash : String
  campaign_id : Option Nat
  service : String
  amount_cents : Int
  payer : String
  source : Source
  status : Status
deriving DecidableEq

/-- Outcome of reconciliation, per §4.4: `reconcile(event) -> Applied |
Ignored(DuplicateOrStale)`; `Ignored` is a success variant, not an error,
so at-least-once delivery retries are not broken. -/
inductive ReconcileOutcome
  | applied
  | ignored
deriving DecidableEq

/-- The payment record a settlement event inserts. -/
def eventRecord (e : SettlementEvent) : PaymentRecord :=
  { tx_hash := e.tx_hash, campaign_id := e.campaign_id, service := e.service,
    amount_cents := e.amount_cents, payer := e.payer, source := e.source,
    status := e.status }

/-- Modelled from the spec: the settlement reconciler of §4.4 (missing Rust
webhook handler behind `POST /webhooks/x402scan/settlement`). A duplicate
hash is ignored; otherwise the record is inserted and, for a settled event
referencing a campaign, the budget debit is applied — once per hash,
ever. -/
def reconcile (l : Ledger) (e : SettlementEvent) : ReconcileOutcome × Ledger :=
  if hashExists l.payments e.tx_hash then (.ignored, l)
  else
    match e.campaign_id, e.status with
    | some cid, .settled =>
        match debit_campaign l.campaigns cid e.amount_cents with
        | .ok cs => (.applied, { campaigns := cs, payments := eventRecord e :: l.payments })
        | _ => (.applied, { l with payments := eventRecord e :: l.payments })
    | _, _ => (.applied, { l with payments := eventRecord e :: l.payments })

/-- Reasons the gate denies a call (§7 error taxonomy). -/
inductive DenyReason
  | tokenNotFound
  | tokenConsumed
  | proofRejected
deriving DecidableEq

/-- Outcome of the Gate Orchestrator, per §6:
`run_sponsored_or_direct(user_id, service, proof?) ->
Allowed | PaymentRequired(challenge) | Denied(reason)`. -/
inductive GateOutcome
  | allowed (sponsored : Bool)
  | paymentRequired (challenge : ChallengeToken)
  | denied (reason : DenyReason)
deriving DecidableEq

/-- A presented payment proof: the token it references and the boolean
outcome of the delegated external proof verifier (§4.3 treats the
cryptographic check as a collaborator's boolean answer). -/
structure PaymentProof where
  tokenId : Nat
  sigValid : Bool
deriving DecidableEq

/-- Modelled from the spec: the engine state — the ledger plus the
ephemeral challenge-token store and a nonce for fresh token ids and
transaction hashes. -/
structure Engine where
  campaigns : List Campaign
  payments : List PaymentRecord
  completions : List TaskCompletion
  tokens : List ChallengeToken
  nextNonce : Nat
deriving DecidableEq

/-- Modelled from the spec: the flat per-call price of a direct (non
sponsored) service call named in the 402 challenge (the repository README
mock charges a fixed amount). -/
def directPrice (_service : String) : Int := 5

/-- Fresh transaction hash for a locally produced payment record. -/
def freshTxHash (st : Engine) : String := "tx-" ++ toString st.nextNonce

/-- Token lifetime in abstract time units: a short expiry (§4.3 suggests
about five minutes). -/
def tokenTtl : Nat := 300

/-- Modelled from the spec: step 1 of the payment challenge protocol of
§4.3 — issue a 402 challenge naming the amount due, the service, and an
opaque fresh token with a short expiry. -/
def issueChallenge (st : Engine) (service : String) (now : Nat) : GateOutcome × Engine :=
  let tok : ChallengeToken :=
    { tokenId := st.nextNonce, service := service,
      amount_cents := directPrice service, expiry := now + tokenTtl,
      consumed := false }
  (.paymentRequired tok,
    { st with tokens := tok :: st.tokens, nextNonce := st.nextNonce + 1 })

/-- Mark the token with the given id consumed (single-use consumption,
§3). -/
def consumeToken (toks : List ChallengeToken) (tid : Nat) : List ChallengeToken :=
  toks.map fun t => if t.tokenId == tid then { t with consumed := true } else t

/-- Modelled from the spec: step 2 of the payment challenge protocol of
§4.3 (missing Rust code). No proof yields a challenge; an expired token
yields a fresh challenge; a consumed token is rejected; an accepted proof
atomically consumes the token, records a settled user payment and allows
the call. -/
def directPath (st : Engine) (p : Profile) (service : String)
    (proofOpt : Option PaymentProof) (now : Nat) : GateOutcome × Engine :=
  match proofOpt with
  | none => issueChallenge st service now
  | some pr =>
      match st.tokens.find? (fun t => t.tokenId == pr.tokenId) with
      | none => (.denied .tokenNotFound, st)
      | some t =>
          if t.expiry < now then issueChallenge st service now
          else if t.consumed then (.denied .tokenConsumed, st)
          else if pr.sigValid then
            (.allowed false,
              { st with tokens := consumeToken st.tokens t.tokenId,
                        payments :=
                          { tx_hash := freshTxHash st, campaign_id := none,
                            service := service, amount_cents := t.amount_cents,
                            payer := toString p.id, source := .user,
                            status := .settled } :: st.payments,
                        nextNonce := st.nextNonce + 1 })
          else (.denied .proofRejected, st)

/-- Modelled from the spec: the Gate Orchestrator of §4.5 (missing Rust
code behind `/proxy/:service/run` and `/tool/:service/run`). A sponsor
eligible call debits the ledger, appends a settled sponsor payment record
tagged with the campaign, and is allowed; otherwise (including an
`InsufficientBudget` re-validation at the point of mutation) the call falls
through to the direct-pay path. -/
def runGate (st : Engine) (p : Profile) (service : String)
    (proofOpt : Option PaymentProof) (now : Nat) : GateOutcome × Engine :=
  match selectCampaign st.completions p service st.campaigns with
  | some c =>
      match debit_campaign st.campaigns c.id c.subsidy_per_call_cents with
      | .ok cs =>
          (.allowed true,
            { st with campaigns := cs,
                      payments :=
                        { tx_hash := freshTxHash st, campaign_id := some c.id,
                          service := service,
                          amount_cents := c.subsidy_per_call_cents,
                          payer := c.sponsor, source := .sponsor,
                          status := .settled } :: st.payments,
                      nextNonce := st.nextNonce + 1 })
      | _ => directPath st p service proofOpt now
  | none => directPath st p service proofOpt now

/-- The Campaign shape of the dashboard, translated from the TypeScript
type `Campaign` in `frontend/src/App.tsx` (lines 3–14): it has a
`budget_remaining_cents` field but no `budget_cents` field. -/
structure FrontCampaign where
  id : String
  name : String
  sponsor : String
  target_roles : List String
  target_tools : List String
  required_task : String
  subsidy_per_call_cents : Int
  budget_remaining_cents : Int
  active : Bool
  created_at : String
deriving DecidableEq

/-- JavaScript member access `item.budget_cents` on the dashboard Campaign:
the type has no such field, so the access yields `undefined`, modelled as
`none`; the `|| 0` fallback in the source becomes `Option.getD 0`. -/
def budgetCentsField (_ : FrontCampaign) : Option Int := none

/-- The `totalPayouts` accumulator of the dashboard `totals` memo,
translated from `frontend/src/App.tsx` lines 184–187:
`campaigns.reduce((acc, item) => acc + (item.budget_cents || 0) -
item.budget_remaining_cents, 0)`. -/
def totalPayouts (campaigns : List FrontCampaign) : Int :=
  campaigns.foldl
    (fun acc item => acc + (budgetCentsField item).getD 0 - item.budget_remaining_cents)
    0

/-- Sum of the remaining budgets of the dashboard campaign list (matches
the `budgetCents` accumulator of the same memo). -/
def sumRemaining (campaigns : List FrontCampaign) : Int :=
  campaigns.foldl (fun acc item => acc + item.budget_remaining_cents) 0

/-- Concrete campaign of the repository README walkthrough: budget 500¢,
subsidy 5¢ per call, gated on the `signup_acme` task. -/
def demoCampaign : Campaign :=
  { id := 1, name := "Infra Adoption Push", sponsor := "Acme Infra",
    target_roles := ["developer"], target_tools := ["scraping"],
    required_task := "signup_acme", subsidy_per_call_cents := 5,
    budget_cents := 500, budget_remaining_cents := 500, active := true,
    created_at := 0 }

/-- Concrete developer profile of the README walkthrough. -/
def demoProfile : Profile :=
  { id := 42, roles := ["developer"], tools_used := ["scraping", "storage"] }

/-- Engine state holding the demo campaign, with the gating task already
completed by the demo profile. -/
def demoEngine : Engine :=
  { campaigns := [demoCampaign], payments := [],
    completions := [⟨1, 42, "signup_acme", "completed onboarding"⟩],
    tokens := [], nextNonce := 0 }

/-- A second sponsor campaign, created later than the demo campaign, with
the same targeting. -/
def demoCampaign2 : Campaign :=
  { demoCampaign with
    id := 2, name := "Later Push", sponsor := "Beta Infra", created_at := 1 }

/-- One sponsored proxy call of the demo profile against the scraping
service. -/
def demoStep (st : Engine) : GateOutcome × Engine :=
  runGate st demoProfile "scraping" none 0

/-- The engine state after n sponsored demo calls. -/
def demoRun : Nat → Engine
  | 0 => demoEngine
  | n + 1 => (demoStep (demoRun n)).2

theorem getCampaign_some_id {l : List Campaign} {cid : Nat} {c : Campaign}
    (h : getCampaign l cid = some c) : c.id = cid := by
  induction l with
  | nil => cases h
  | cons d ds ih =>
      unfold getCampaign at h ih
      rw [List.find?_cons] at h
      cases hbeq : (d.id == cid) with
      | true =>
          simp only [hbeq] at h
          cases h
          exact eq_of_beq hbeq
      | false =>
          simp only [hbeq] at h
          exact ih h

theorem getCampaign_mem {l : List Campaign} {cid : Nat} {c : Campaign}
    (h : getCampaign l cid = some c) : c ∈ l := by
  unfold getCampaign at h
  exact List.mem_of_find?_eq_some h

theorem getCampaign_debitUpdate (l : List Campaign) (cid cid' : Nat) (a : Int) :
    getCampaign (debitUpdate l cid' a) cid =
      (getCampaign l cid).map fun c =>
        if c.id == cid' then
          { c with budget_remaining_cents := c.budget_remaining_cents - a }
        else c := by
  unfold getCampaign debitUpdate
  rw [List.find?_map]
  have hp : ((fun c : Campaign => c.id == cid) ∘ fun d =>
      if d.id == cid' then
        { d with budget_remaining_cents := d.budget_remaining_cents - a }
      else d) = fun c : Campaign => c.id == cid := by
    funext c
    simp only [Function.comp_apply]
    by_cases h : (c.id == cid') = true
    · rw [if_pos h]
    · rw [if_neg h]
  rw [hp]

theorem debitUpdate_ids (l : List Campaign) (cid : Nat) (a : Int) :
    (debitUpdate l cid a).map Campaign.id = l.map Campaign.id := by
  unfold debitUpdate
  rw [List.map_map]
  apply List.map_congr_left
  intro c _
  simp only [Function.comp_apply]
  by_cases h : (c.id == cid) = true
  · rw [if_pos h]
  · rw [if_neg h]

theorem getCampaign_of_mem_nodup {l : List Campaign} {c : Campaign}
    (hnd : (l.map Campaign.id).Nodup) (hc : c ∈ l) :
    getCampaign l c.id = some c := by
  induction l with
  | nil => cases hc
  | cons d ds ih =>
      rw [List.map_cons, List.nodup_cons] at hnd
      rcases List.mem_cons.mp hc with h | h
      · subst h
        unfold getCampaign
        rw [List.find?_cons]
        simp
      · have hne : (d.id == c.id) = false := by
          apply beq_eq_false_iff_ne.mpr
          intro heq
          exact hnd.1 (heq ▸ List.mem_map_of_mem Campaign.id h)
        unfold getCampaign at ih ⊢
        rw [List.find?_cons]
        simp only [hne]
        exact ih hnd.2 h

theorem debit_ok_shape {l : List Campaign} {cid : Nat} {a : Int} {l' : List Campaign}
    (h : debit_campaign l cid a = .ok l') :
    l' = debitUpdate l cid a ∧
      ∃ c, getCampaign l cid = some c ∧ a ≤ c.budget_remaining_cents := by
  unfold debit_campaign at h
  split at h
  · exact DebitResult.noConfusion h
  · rename_i c hg
    split at h
    · rename_i hle
      injection h with h1
      exact ⟨h1.symm, c, hg, hle⟩
    · exact DebitResult.noConfusion h

theorem debit_ok_inv {l : List Campaign} {cid : Nat} {a : Int} {l' : List Campaign}
    (hnd : (l.map Campaign.id).Nodup) (hinv : ∀ c ∈ l, campaignInv c)
    (ha : 0 ≤ a) (h : debit_campaign l cid a = .ok l') :
    ∀ c' ∈ l', campaignInv c' := by
  obtain ⟨hshape, c, hget, hle⟩ := debit_ok_shape h
  subst hshape
  intro c' hc'
  unfold debitUpdate at hc'
  obtain ⟨d, hd, hdef⟩ := List.mem_map.mp hc'
  by_cases hid : (d.id == cid) = true
  · rw [if_pos hid] at hdef
    subst hdef
    have hfound : getCampaign l d.id = some d := getCampaign_of_mem_nodup hnd hd
    have hid' : d.id = cid := eq_of_beq hid
    rw [hid', hget] at hfound
    have hcd : c = d := Option.some.inj hfound
    subst hcd
    obtain ⟨h0, h1⟩ := hinv c hd
    unfold campaignInv
    constructor
    · show 0 ≤ c.budget_remaining_cents - a
      omega
    · show c.budget_remaining_cents - a ≤ c.budget_cents
      omega
  · rw [if_neg hid] at hdef
    subst hdef
    exact hinv d hd

theorem debit_ok_ids {l : List Campaign} {cid : Nat} {a : Int} {l' : List Campaign}
    (h : debit_campaign l cid a = .ok l') :
    l'.map Campaign.id = l.map Campaign.id := by
  obtain ⟨hshape, -⟩ := debit_ok_shape h
  subst hshape
  exact debitUpdate_ids l cid a

theorem runDebits_spec (ds : List (Nat × Int)) :
    ∀ l : List Campaign,
      (l.map Campaign.id).Nodup →
      (∀ op ∈ ds, 0 ≤ op.2) →
      (∀ c ∈ l, campaignInv c) →
      (∀ c' ∈ (runDebits l ds).1, campaignInv c') ∧
      ((runDebits l ds).1.map Campaign.id = l.map Campaign.id) ∧
      (∀ cid c, getCampaign l cid = some c →
        ∃ c', getCampaign (runDebits l ds).1 cid = some c' ∧
          c'.budget_remaining_cents =
            c.budget_remaining_cents - sumFor cid (runDebits l ds).2 ∧
          c'.budget_cents = c.budget_cents) := by
  induction ds with
  | nil =>
      intro l hnd _ hinv
      refine ⟨hinv, rfl, ?_⟩
      intro cid c hget
      exact ⟨c, hget, by simp [runDebits, sumFor], rfl⟩
  | cons op ops ih =>
      intro l hnd hpos hinv
      have hpos' : ∀ o ∈ ops, 0 ≤ o.2 := fun o ho => hpos o (List.mem_cons_of_mem _ ho)
      have hop : 0 ≤ op.2 := hpos op (List.mem_cons_self op ops)
      cases hd : debit_campaign l op.1 op.2 with
      | ok l' =>
          have hnd' : (l'.map Campaign.id).Nodup := by
            rw [debit_ok_ids hd]; exact hnd
          have hinv' : ∀ c ∈ l', campaignInv c := debit_ok_inv hnd hinv hop hd
          obtain ⟨ih1, ih2, ih3⟩ := ih l' hnd' hpos' hinv'
          have hrun : runDebits l (op :: ops) =
              ((runDebits l' ops).1, op :: (runDebits l' ops).2) := by
            simp only [runDebits]
            rw [hd]
          refine ⟨by rw [hrun]; exact ih1, ?_, ?_⟩
          · rw [hrun]
            simpa [debit_ok_ids hd] using ih2
          · intro cid c hget
            obtain ⟨hshape, c₀, hget₀, hle₀⟩ := debit_ok_shape hd
            have hget' : getCampaign l' cid =
                some (if c.id == op.1 then
                  { c with budget_remaining_cents := c.budget_remaining_cents - op.2 }
                else c) := by
              rw [hshape, getCampaign_debitUpdate, hget]
              rfl
            by_cases hcid : (c.id == op.1) = true
            · rw [if_pos hcid] at hget'
              obtain ⟨c', hc', hrem, htot⟩ := ih3 cid _ hget'
              have hrem' : c'.budget_remaining_cents =
                  c.budget_remaining_cents - op.2 - sumFor cid (runDebits l' ops).2 := hrem
              refine ⟨c', by rw [hrun]; exact hc', ?_, htot⟩
              rw [hrun]
              have hcid' : (op.1 == cid) = true := by
                have h1 : c.id = op.1 := eq_of_beq hcid
                have hc : c.id = cid := getCampaign_some_id hget
                simp only [beq_iff_eq]
                omega
              simp [sumFor, hcid']
              omega
            · rw [if_neg hcid] at hget'
              obtain ⟨c', hc', hrem, htot⟩ := ih3 cid c hget'
              refine ⟨c', by rw [hrun]; exact hc', ?_, htot⟩
              rw [hrun]
              have hcid' : (op.1 == cid) = false := by
                apply beq_eq_false_iff_ne.mpr
                intro hbeq
                apply hcid
                have hc : c.id = cid := getCampaign_some_id hget
                simp only [beq_iff_eq]
                omega
              simp [sumFor, hcid']
              omega
      | insufficientBudget =>
          have hrun : runDebits l (op :: ops) = runDebits l ops := by
            simp only [runDebits]
            rw [hd]
          rw [hrun]
          exact ih l hnd hpos' hinv
      | notFound =>
          have hrun : runDebits l (op :: ops) = runDebits l ops := by
            simp only [runDebits]
            rw [hd]
          rw [hrun]
          exact ih l hnd hpos' hinv

theorem has_completed_insert (ts : List TaskCompletion) (cid uid : Nat)
    (task details : String) :
    has_completed (⟨cid, uid, task, details⟩ :: ts) cid uid task = true := by
  unfold has_completed
  simp

/-- C9: TaskCompletion recording is an idempotent insert: recording the same
(campaign_id, user_id, task_name) twice does not error and does not double
count — the state after two identical `record_completion` calls equals the
state after one. -/
theorem record_completion_idempotent (ts : List TaskCompletion) (cid uid : Nat)
    (task details : String) :
    record_completion (record_completion ts cid uid task details) cid uid task details =
      record_completion ts cid uid task details := by
  by_cases h : has_completed ts cid uid task = true
  · unfold record_completion
    rw [if_pos h, if_pos h]
  · have hstep : record_completion ts cid uid task details = ⟨cid, uid, task, details⟩ :: ts := by
      unfold record_completion
      rw [if_neg h]
    rw [hstep]
    unfold record_completion
    rw [if_pos (has_completed_insert ts cid uid task details)]

theorem totalPayouts_go (cs : List FrontCampaign) :
    ∀ acc : Int,
      cs.foldl
        (fun acc item => acc + (budgetCentsField item).getD 0 - item.budget_remaining_cents)
        acc = acc - (cs.map FrontCampaign.budget_remaining_cents).sum := by
  induction cs with
  | nil => intro acc; simp
  | cons c cs ih =>
      intro acc
      rw [List.foldl_cons, ih]
      simp [budgetCentsField]
      ring

theorem sumRemaining_go (cs : List FrontCampaign) :
    ∀ acc : Int,
      cs.foldl (fun acc item => acc + item.budget_remaining_cents) acc =
        acc + (cs.map FrontCampaign.budget_remaining_cents).sum := by
  induction cs with
  | nil => intro acc; simp
  | cons c cs ih =>
      intro acc
      rw [List.foldl_cons, ih]
      simp
      ring

/-- C10: the dashboard `totals.totalPayouts` memo sums
`(item.budget_cents || 0) - item.budget_remaining_cents` over the campaign
list, and since the dashboard Campaign type has no `budget_cents` field the
accumulated value equals the negated sum of `budget_remaining_cents`; with
non-negative remaining budgets the displayed total-payouts figure is
non-positive, and strictly negative as soon as one campaign has remaining
budget. -/
theorem totalPayouts_negates_remaining (campaigns : List FrontCampaign) :
    totalPayouts campaigns = -(sumRemaining campaigns) ∧
    ((∀ c ∈ campaigns, 0 ≤ c.budget_remaining_cents) → totalPayouts campaigns ≤ 0) ∧
    ((∀ c ∈ campaigns, 0 ≤ c.budget_remaining_cents) →
      (∃ c ∈ campaigns, 0 < c.budget_remaining_cents) → totalPayouts campaigns < 0) := by
  have h1 : totalPayouts campaigns = -(campaigns.map FrontCampaign.budget_remaining_cents).sum := by
    unfold totalPayouts
    rw [totalPayouts_go]
    ring
  have h2 : sumRemaining campaigns = (campaigns.map FrontCampaign.budget_remaining_cents).sum := by
    unfold sumRemaining
    rw [sumRemaining_go]
    ring
  refine ⟨by rw [h1, h2], ?_, ?_⟩
  · intro hpos
    have : 0 ≤ (campaigns.map FrontCampaign.budget_remaining_cents).sum := by
      apply List.sum_nonneg
      intro x hx
      obtain ⟨c, hc, rfl⟩ := List.mem_map.mp hx
      exact hpos c hc
    omega
  · intro hpos ⟨c, hc, hcpos⟩
    have hsum : c.budget_remaining_cents ≤ (campaigns.map FrontCampaign.budget_remaining_cents).sum := by
      apply List.single_le_sum
      · intro x hx
        obtain ⟨d, hd, rfl⟩ := List.mem_map.mp hx
        exact hpos d hd
      · exact List.mem_map_of_mem FrontCampaign.budget_remaining_cents hc
    omega

/-- Witness for C10 at a concrete dashboard campaign list: a single
campaign with 200¢ remaining yields a displayed total-payouts sum of
−200¢. -/
theorem totalPayouts_negates_remaining_witness :
    totalPayouts [⟨"c1", "Infra Adoption Push", "Acme Infra", ["developer"],
      ["scraping"], "signup_acme", 5, 200, true, "2024-01-01"⟩] =
      -(sumRemaining [⟨"c1", "Infra Adoption Push", "Acme Infra", ["developer"],
        ["scraping"], "signup_acme", 5, 200, true, "2024-01-01"⟩]) ∧
    totalPayouts [⟨"c1", "Infra Adoption Push", "Acme Infra", ["developer"],
      ["scraping"], "signup_acme", 5, 200, true, "2024-01-01"⟩] ≤ 0 := by
  obtain ⟨h1, h2, h3⟩ := totalPayouts_negates_remaining
    [⟨"c1", "Infra Adoption Push", "Acme Infra", ["developer"],
      ["scraping"], "signup_acme", 5, 200, true, "2024-01-01"⟩]
  exact ⟨h1, h2 (by decide)⟩

/-- C1: in every ledger state reachable by a sequence of guarded debits from
a state where every campaign satisfies `0 ≤ remaining ≤ total`, every
campaign still satisfies the invariant, and the sum of the successful
debits charged to a campaign never exceeds its initial remaining budget nor
its total budget B. -/
theorem budget_invariant_preserved
    (l : List Campaign) (ds : List (Nat × Int))
    (hnd : (l.map Campaign.id).Nodup)
    (hpos : ∀ op ∈ ds, 0 ≤ op.2)
    (hinv : ∀ c ∈ l, campaignInv c) :
    (∀ c' ∈ (runDebits l ds).1, campaignInv c') ∧
    (∀ cid c, getCampaign l cid = some c →
      sumFor cid (runDebits l ds).2 ≤ c.budget_remaining_cents ∧
      sumFor cid (runDebits l ds).2 ≤ c.budget_cents) := by
  obtain ⟨h1, h2, h3⟩ := runDebits_spec ds l hnd hpos hinv
  refine ⟨h1, ?_⟩
  intro cid c hget
  obtain ⟨c', hc', hrem, htot⟩ := h3 cid c hget
  have hmem : c' ∈ (runDebits l ds).1 := getCampaign_mem hc'
  obtain ⟨h0, hb⟩ := h1 c' hmem
  obtain ⟨hc0, hcb⟩ := hinv c (getCampaign_mem hget)
  constructor <;> omega

/-- Witness for C1 at the demo campaign (budget 500¢) under a concrete
debit sequence containing successful, over-budget and unknown-campaign
requests. -/
theorem budget_invariant_preserved_witness :
    (∀ c' ∈ (runDebits [demoCampaign] [(1, 5), (1, 600), (2, 3), (1, 495)]).1, campaignInv c') ∧
    (∀ cid c, getCampaign [demoCampaign] cid = some c →
      sumFor cid (runDebits [demoCampaign] [(1, 5), (1, 600), (2, 3), (1, 495)]).2 ≤
        c.budget_remaining_cents ∧
      sumFor cid (runDebits [demoCampaign] [(1, 5), (1, 600), (2, 3), (1, 495)]).2 ≤
        c.budget_cents) :=
  budget_invariant_preserved [demoCampaign] [(1, 5), (1, 600), (2, 3), (1, 495)]
    (by decide) (by decide) (by decide)

theorem toolMatch_true_iff (c : Campaign) (service : String) :
    toolMatch c service = true ↔ (c.target_tools = [] ∨ service ∈ c.target_tools) := by
  unfold toolMatch
  simp

theorem roleMatch_true_iff (p : Profile) (c : Campaign) :
    roleMatch p c = true ↔
      (c.target_roles = [] ∨ ∃ r ∈ p.roles, r ∈ c.target_roles) := by
  unfold roleMatch
  simp

/-- C3: `evaluate` returns `Eligible` iff all five conditions hold — active
campaign, tool targeting match (empty set is a wildcard), role intersection
non-empty (empty set is a wildcard), task completion row present, and
remaining budget covering one subsidy — and each `Ineligible` reason
identifies a genuinely failing condition, so role mismatch, tool mismatch,
task incomplete, budget exhausted and campaign inactive stay
distinguishable. -/
theorem evaluate_eligible_iff (ts : List TaskCompletion) (p : Profile)
    (c : Campaign) (service : String) :
    (evaluate ts p c service = .eligible ↔
      c.active = true ∧
      (c.target_tools = [] ∨ service ∈ c.target_tools) ∧
      (c.target_roles = [] ∨ ∃ r ∈ p.roles, r ∈ c.target_roles) ∧
      has_completed ts c.id p.id c.required_task = true ∧
      c.subsidy_per_call_cents ≤ c.budget_remaining_cents) ∧
    (evaluate ts p c service = .ineligible .campaignInactive → c.active = false) ∧
    (evaluate ts p c service = .ineligible .toolMismatch →
      ¬(c.target_tools = [] ∨ service ∈ c.target_tools)) ∧
    (evaluate ts p c service = .ineligible .roleMismatch →
      ¬(c.target_roles = [] ∨ ∃ r ∈ p.roles, r ∈ c.target_roles)) ∧
    (evaluate ts p c service = .ineligible .taskIncomplete →
      has_completed ts c.id p.id c.required_task = false) ∧
    (evaluate ts p c service = .ineligible .budgetExhausted →
      c.budget_remaining_cents < c.subsidy_per_call_cents) := by
  rw [show (c.target_tools = [] ∨ service ∈ c.target_tools) ↔ toolMatch c service = true
    from (toolMatch_true_iff c service).symm] at *
  rw [show (c.target_roles = [] ∨ ∃ r ∈ p.roles, r ∈ c.target_roles) ↔ roleMatch p c = true
    from (roleMatch_true_iff p c).symm]
  unfold evaluate
  split_ifs with h1 h2 h3 h4 h5 <;> simp_all

/-- Witness for C3: the demo profile is eligible for the demo campaign on
the scraping service, obtained through the five-condition characterization. -/
theorem evaluate_eligible_iff_witness :
    evaluate demoEngine.completions demoProfile demoCampaign "scraping" = .eligible :=
  (evaluate_eligible_iff demoEngine.completions demoProfile demoCampaign "scraping").1.mpr
    (by decide)

theorem find?_some_pred {α : Type} (q : α → Bool) {l : List α} {a : α}
    (h : l.find? q = some a) : q a = true :=
  List.find?_some h

theorem reconcile_hashExists (l : Ledger) (e : SettlementEvent) :
    hashExists (reconcile l e).2.payments e.tx_hash = true := by
  have hcons : ∀ ps : List PaymentRecord,
      hashExists (eventRecord e :: ps) e.tx_hash = true := by
    intro ps
    unfold hashExists eventRecord
    simp
  unfold reconcile
  by_cases h : hashExists l.payments e.tx_hash = true
  · rw [if_pos h]
    exact h
  · rw [if_neg h]
    split <;> first
      | exact hcons l.payments
      | (split <;> exact hcons l.payments)

theorem hashExists_iff_find (ps : List PaymentRecord) (h : String) :
    hashExists ps h = true ↔ ∃ p, ps.find? (fun q => q.tx_hash == h) = some p := by
  unfold hashExists
  rw [List.any_eq_true]
  constructor
  · rintro ⟨x, hx, hpx⟩
    exact Option.isSome_iff_exists.mp (List.find?_isSome.mpr ⟨x, hx, hpx⟩)
  · rintro ⟨p, hp⟩
    exact ⟨p, List.mem_of_find?_eq_some hp,
      find?_some_pred (fun q : PaymentRecord => q.tx_hash == h) hp⟩

theorem find?_setStatus (ps : List PaymentRecord) (h : String) (st : Status) :
    (setStatus ps h st).find? (fun q => q.tx_hash == h) =
      (ps.find? (fun q => q.tx_hash == h)).map
        (fun q => if q.tx_hash == h then { q with status := st } else q) := by
  unfold setStatus
  rw [List.find?_map]
  have hp : ((fun q : PaymentRecord => q.tx_hash == h) ∘ fun q =>
      if q.tx_hash == h then { q with status := st } else q)
      = fun q : PaymentRecord => q.tx_hash == h := by
    funext q
    simp only [Function.comp_apply]
    by_cases hq : (q.tx_hash == h) = true
    · rw [if_pos hq]
    · rw [if_neg hq]
  rw [hp]

theorem record_payment_existing {l : Ledger} {r p : PaymentRecord}
    (hfind : l.payments.find? (fun q => q.tx_hash == r.tx_hash) = some p) :
    (record_payment l r).1 = .alreadyRecorded ∧
    (record_payment l r).2.payments.length = l.payments.length := by
  unfold record_payment
  rw [hfind]
  dsimp only
  by_cases hs : p.status = r.status
  · rw [if_pos hs]
    exact ⟨rfl, rfl⟩
  · rw [if_neg hs]
    have hlen : (setStatus l.payments r.tx_hash r.status).length = l.payments.length := by
      unfold setStatus
      exact List.length_map l.payments _
    by_cases ht : p.status = .failed ∧ r.status = .settled
    · rw [if_pos ht]
      cases hcid : r.campaign_id with
      | none => exact ⟨rfl, hlen⟩
      | some cid =>
          dsimp only
          cases hd : debit_campaign l.campaigns cid r.amount_cents <;>
            exact ⟨rfl, hlen⟩
    · rw [if_neg ht]
      exact ⟨rfl, hlen⟩

theorem record_payment_diff_payments {l : Ledger} {r p : PaymentRecord}
    (hfind : l.payments.find? (fun q => q.tx_hash == r.tx_hash) = some p)
    (hs : p.status ≠ r.status) :
    (record_payment l r).2.payments = setStatus l.payments r.tx_hash r.status := by
  unfold record_payment
  rw [hfind]
  dsimp only
  rw [if_neg hs]
  by_cases ht : p.status = .failed ∧ r.status = .settled
  · rw [if_pos ht]
    cases hcid : r.campaign_id with
    | none => rfl
    | some cid =>
        dsimp only
        cases hd : debit_campaign l.campaigns cid r.amount_cents <;> rfl
  · rw [if_neg ht]

/-- C2: settlement handling is idempotent on the external transaction hash.
Replaying a settlement event against the ledger it produced is an
`Ignored` no-op reported as success; `record_payment` on an existing hash
returns `AlreadyRecorded` without inserting a duplicate row; and a
failed→settled confirming update applies its budget side-effect exactly
once — repeating the settled record afterwards leaves the ledger
unchanged, so no double debit occurs. -/
theorem settlement_idempotent :
    (∀ (l : Ledger) (e : SettlementEvent),
      reconcile (reconcile l e).2 e = (.ignored, (reconcile l e).2)) ∧
    (∀ (l : Ledger) (r : PaymentRecord),
      hashExists l.payments r.tx_hash = true →
      (record_payment l r).1 = .alreadyRecorded ∧
      (record_payment l r).2.payments.length = l.payments.length) ∧
    (∀ (l : Ledger) (r p : PaymentRecord),
      l.payments.find? (fun q => q.tx_hash == r.tx_hash) = some p →
      p.status = .failed → r.status = .settled →
      record_payment (record_payment l r).2 r = (.alreadyRecorded, (record_payment l r).2)) := by
  refine ⟨?_, ?_, ?_⟩
  · intro l e
    have hh := reconcile_hashExists l e
    revert hh
    generalize (reconcile l e).2 = l1
    intro hh
    unfold reconcile
    rw [if_pos hh]
  · intro l r hh
    obtain ⟨p, hfind⟩ := (hashExists_iff_find l.payments r.tx_hash).mp hh
    exact record_payment_existing hfind
  · intro l r p hfind hpf hrs
    have hs : p.status ≠ r.status := by
      rw [hpf, hrs]
      intro hcontra
      cases hcontra
    have hpay : (record_payment l r).2.payments = setStatus l.payments r.tx_hash r.status :=
      record_payment_diff_payments hfind hs
    have hpred : (p.tx_hash == r.tx_hash) = true :=
      find?_some_pred (fun q : PaymentRecord => q.tx_hash == r.tx_hash) hfind
    have hfind2 : (record_payment l r).2.payments.find? (fun q => q.tx_hash == r.tx_hash) =
        some { p with status := r.status } := by
      rw [hpay, find?_setStatus, hfind]
      simp [hpred]
      intro hcontra
      exact absurd (eq_of_beq hpred) hcontra
    revert hfind2
    generalize (record_payment l r).2 = l1
    intro hfind2
    unfold record_payment
    rw [hfind2]
    dsimp only
    rw [if_pos rfl]

/-- Witness for C2: a concrete replayed settled event, a duplicate fresh
insert and a concrete failed→settled confirming update, all against the
demo ledger. -/
theorem settlement_idempotent_witness :
    (reconcile
        (reconcile ⟨[demoCampaign], []⟩
          ⟨"0xabc", some 1, "scraping", 5, "Acme Infra", .sponsor, .settled⟩).2
        ⟨"0xabc", some 1, "scraping", 5, "Acme Infra", .sponsor, .settled⟩ =
      (.ignored,
        (reconcile ⟨[demoCampaign], []⟩
          ⟨"0xabc", some 1, "scraping", 5, "Acme Infra", .sponsor, .settled⟩).2)) ∧
    ((record_payment
        ⟨[demoCampaign], [⟨"0xdef", none, "design", 5, "dev", .user, .settled⟩]⟩
        ⟨"0xdef", none, "design", 5, "dev", .user, .settled⟩).1 = .alreadyRecorded) ∧
    (record_payment
        (record_payment
          ⟨[demoCampaign], [⟨"0xfee", some 1, "scraping", 5, "Acme Infra", .sponsor, .failed⟩]⟩
          ⟨"0xfee", some 1, "scraping", 5, "Acme Infra", .sponsor, .settled⟩).2
        ⟨"0xfee", some 1, "scraping", 5, "Acme Infra", .sponsor, .settled⟩ =
      (.alreadyRecorded,
        (record_payment
          ⟨[demoCampaign], [⟨"0xfee", some 1, "scraping", 5, "Acme Infra", .sponsor, .failed⟩]⟩
          ⟨"0xfee", some 1, "scraping", 5, "Acme Infra", .sponsor, .settled⟩).2)) := by
  refine ⟨?_, ?_, ?_⟩
  · exact settlement_idempotent.1 ⟨[demoCampaign], []⟩
      ⟨"0xabc", some 1, "scraping", 5, "Acme Infra", .sponsor, .settled⟩
  · exact (settlement_idempotent.2.1
      ⟨[demoCampaign], [⟨"0xdef", none, "design", 5, "dev", .user, .settled⟩]⟩
      ⟨"0xdef", none, "design", 5, "dev", .user, .settled⟩ (by decide)).1
  · exact settlement_idempotent.2.2
      ⟨[demoCampaign], [⟨"0xfee", some 1, "scraping", 5, "Acme Infra", .sponsor, .failed⟩]⟩
      ⟨"0xfee", some 1, "scraping", 5, "Acme Infra", .sponsor, .settled⟩
      ⟨"0xfee", some 1, "scraping", 5, "Acme Infra", .sponsor, .failed⟩
      (by decide) rfl rfl

theorem keyLeb_iff (c d : Campaign) : keyLeb c d = true ↔ keyLe c d := by
  unfold keyLeb keyLe
  simp

theorem keyLe_total (c d : Campaign) : keyLe c d ∨ keyLe d c := by
  unfold keyLe
  omega

theorem keyLe_refl (c : Campaign) : keyLe c c := by
  unfold keyLe
  omega

theorem keyLe_trans {c d e : Campaign} (h1 : keyLe c d) (h2 : keyLe d e) :
    keyLe c e := by
  unfold keyLe at h1 h2 ⊢
  omega

theorem keyLe_antisymm_key {c d : Campaign} (h1 : keyLe c d) (h2 : keyLe d c) :
    (c.created_at, c.id) = (d.created_at, d.id) := by
  unfold keyLe at h1 h2
  rw [Prod.mk.injEq]
  omega

theorem insertCampaign_perm (c : Campaign) (l : List Campaign) :
    (insertCampaign c l).Perm (c :: l) := by
  induction l with
  | nil => exact List.Perm.refl _
  | cons d ds ih =>
      unfold insertCampaign
      by_cases h : keyLeb c d = true
      · rw [if_pos h]
      · rw [if_neg h]
        exact (List.Perm.cons d ih).trans (List.Perm.swap c d ds)

theorem sortCampaigns_perm (l : List Campaign) : (sortCampaigns l).Perm l := by
  induction l with
  | nil => exact List.Perm.refl _
  | cons c cs ih =>
      unfold sortCampaigns
      exact (insertCampaign_perm c (sortCampaigns cs)).trans (List.Perm.cons c ih)

theorem insertCampaign_pairwise {c : Campaign} {l : List Campaign}
    (hl : l.Pairwise keyLe) : (insertCampaign c l).Pairwise keyLe := by
  induction l with
  | nil => simp [insertCampaign]
  | cons d ds ih =>
      rw [List.pairwise_cons] at hl
      obtain ⟨hd, hds⟩ := hl
      unfold insertCampaign
      by_cases h : keyLeb c d = true
      · rw [if_pos h]
        have hcd : keyLe c d := (keyLeb_iff c d).mp h
        rw [List.pairwise_cons]
        refine ⟨?_, ?_⟩
        · intro x hx
          rcases List.mem_cons.mp hx with rfl | hx
          · exact hcd
          · exact keyLe_trans hcd (hd x hx)
        · rw [List.pairwise_cons]
          exact ⟨hd, hds⟩
      · rw [if_neg h]
        have hdc : keyLe d c := by
          rcases keyLe_total c d with hcd | hdc
          · exact absurd ((keyLeb_iff c d).mpr hcd) h
          · exact hdc
        rw [List.pairwise_cons]
        refine ⟨?_, ih hds⟩
        intro x hx
        have hx' := (insertCampaign_perm c ds).mem_iff.mp hx
        rcases List.mem_cons.mp hx' with rfl | hx'
        · exact hdc
        · exact hd x hx'

theorem sortCampaigns_pairwise (l : List Campaign) :
    (sortCampaigns l).Pairwise keyLe := by
  induction l with
  | nil => exact List.Pairwise.nil
  | cons c cs ih =>
      unfold sortCampaigns
      exact insertCampaign_pairwise ih

theorem find?_min {α : Type} {r : α → α → Prop} {p : α → Bool} :
    ∀ {l : List α} {a : α}, l.Pairwise r → l.find? p = some a →
      ∀ b ∈ l, p b = true → a = b ∨ r a b := by
  intro l
  induction l with
  | nil => intro a _ h; cases h
  | cons x xs ih =>
      intro a hpw hfind b hb hpb
      rw [List.pairwise_cons] at hpw
      rw [List.find?_cons] at hfind
      cases hx : p x with
      | true =>
          simp only [hx] at hfind
          cases hfind
          rcases List.mem_cons.mp hb with rfl | hb'
          · exact Or.inl rfl
          · exact Or.inr (hpw.1 b hb')
      | false =>
          simp only [hx] at hfind
          rcases List.mem_cons.mp hb with rfl | hb'
          · rw [hpb] at hx
            cases hx
          · exact ih hpw.2 hfind b hb' hpb

theorem selectCampaign_some {ts : List TaskCompletion} {p : Profile}
    {service : String} {cs : List Campaign} {c : Campaign}
    (h : selectCampaign ts p service cs = some c) :
    c ∈ cs ∧ evaluate ts p c service = .eligible ∧
      ∀ d ∈ cs, evaluate ts p d service = .eligible → keyLe c d := by
  unfold selectCampaign at h
  refine ⟨?_, ?_, ?_⟩
  · exact (sortCampaigns_perm cs).mem_iff.mp (List.mem_of_find?_eq_some h)
  · have hp := find?_some_pred
      (fun d => decide (evaluate ts p d service = .eligible)) h
    exact of_decide_eq_true hp
  · intro d hd hde
    have hmin := find?_min (sortCampaigns_pairwise cs) h d
      ((sortCampaigns_perm cs).mem_iff.mpr hd) (decide_eq_true hde)
    rcases hmin with rfl | hlt
    · exact keyLe_refl c
    · exact hlt

theorem selectCampaign_none {ts : List TaskCompletion} {p : Profile}
    {service : String} {cs : List Campaign}
    (h : selectCampaign ts p service cs = none) :
    ∀ d ∈ cs, evaluate ts p d service ≠ .eligible := by
  unfold selectCampaign at h
  rw [List.find?_eq_none] at h
  intro d hd hde
  exact absurd (decide_eq_true hde) (h d ((sortCampaigns_perm cs).mem_iff.mpr hd))

/-- C8: campaign selection is deterministic. The selected campaign is an
eligible campaign that is minimal in the stable order by earliest creation
timestamp (tie-broken by identifier), and two evaluations over the same set
of campaigns — any permutation of the store, with distinct sort keys — and
the same profile and service select the same campaign, hence charge the
same sponsor. -/
theorem selection_deterministic (ts : List TaskCompletion) (p : Profile)
    (service : String) (cs cs' : List Campaign)
    (hperm : cs.Perm cs')
    (hnd : (cs.map fun c => (c.created_at, c.id)).Nodup) :
    selectCampaign ts p service cs = selectCampaign ts p service cs' ∧
    (∀ c, selectCampaign ts p service cs = some c →
      c ∈ cs ∧ evaluate ts p c service = .eligible ∧
      ∀ d ∈ cs, evaluate ts p d service = .eligible → keyLe c d) := by
  refine ⟨?_, fun c h => selectCampaign_some h⟩
  cases h1 : selectCampaign ts p service cs with
  | none =>
      cases h2 : selectCampaign ts p service cs' with
      | none => rfl
      | some c' =>
          obtain ⟨hmem', helig', -⟩ := selectCampaign_some h2
          exact absurd helig' (selectCampaign_none h1 c' (hperm.mem_iff.mpr hmem'))
  | some c =>
      cases h2 : selectCampaign ts p service cs' with
      | none =>
          obtain ⟨hmem, helig, -⟩ := selectCampaign_some h1
          exact absurd helig (selectCampaign_none h2 c (hperm.mem_iff.mp hmem))
      | some c' =>
          obtain ⟨hmem, helig, hmin⟩ := selectCampaign_some h1
          obtain ⟨hmem', helig', hmin'⟩ := selectCampaign_some h2
          have hmem'' : c' ∈ cs := hperm.mem_iff.mpr hmem'
          have h12 : keyLe c c' := hmin c' hmem'' helig'
          have h21 : keyLe c' c := hmin' c (hperm.mem_iff.mp hmem) helig
          have hkey := keyLe_antisymm_key h12 h21
          rw [List.inj_on_of_nodup_map hnd hmem hmem'' hkey]

/-- Witness for C8: with two active matching campaigns listed in either
order, selection picks the same campaign — the one created earliest. -/
theorem selection_deterministic_witness :
    selectCampaign demoEngine.completions demoProfile "scraping"
        [demoCampaign2, demoCampaign] =
      selectCampaign demoEngine.completions demoProfile "scraping"
        [demoCampaign, demoCampaign2] :=
  (selection_deterministic demoEngine.completions demoProfile "scraping"
    [demoCampaign2, demoCampaign] [demoCampaign, demoCampaign2]
    (by decide) (by decide)).1

theorem find?_consumeToken (toks : List ChallengeToken) (tid qid : Nat) :
    (consumeToken toks tid).find? (fun u => u.tokenId == qid) =
      (toks.find? (fun u => u.tokenId == qid)).map
        (fun u => if u.tokenId == tid then { u with consumed := true } else u) := by
  unfold consumeToken
  rw [List.find?_map]
  have hp : ((fun u : ChallengeToken => u.tokenId == qid) ∘ fun u =>
      if u.tokenId == tid then { u with consumed := true } else u)
      = fun u : ChallengeToken => u.tokenId == qid := by
    funext u
    simp only [Function.comp_apply]
    by_cases hu : (u.tokenId == tid) = true
    · rw [if_pos hu]
    · rw [if_neg hu]
  rw [hp]

theorem directPath_allowed {st : Engine} {p : Profile} {service : String}
    {proofOpt : Option PaymentProof} {now : Nat} {b : Bool} {st' : Engine}
    (h : directPath st p service proofOpt now = (.allowed b, st')) :
    ∃ t ∈ st.tokens, t.consumed = false ∧
      st'.campaigns = st.campaigns ∧
      st'.tokens = consumeToken st.tokens t.tokenId ∧
      ∃ r : PaymentRecord, r.source = .user ∧ r.status = .settled ∧
        st'.payments = r :: st.payments := by
  unfold directPath at h
  cases proofOpt with
  | none =>
      exfalso
      simp [issueChallenge] at h
  | some pr =>
      dsimp only at h
      cases hfind : st.tokens.find? (fun t => t.tokenId == pr.tokenId) with
      | none =>
          rw [hfind] at h
          exfalso
          simp at h
      | some t =>
          rw [hfind] at h
          dsimp only at h
          by_cases hexp : t.expiry < now
          · rw [if_pos hexp] at h
            exfalso
            simp [issueChallenge] at h
          · rw [if_neg hexp] at h
            by_cases hcons : t.consumed = true
            · rw [if_pos hcons] at h
              exfalso
              simp at h
            · rw [if_neg hcons] at h
              by_cases hsig : pr.sigValid = true
              · rw [if_pos hsig] at h
                injection h with hfst hsnd
                subst hsnd
                exact ⟨t, List.mem_of_find?_eq_some hfind,
                  Bool.eq_false_iff.mpr hcons, rfl, rfl,
                  ⟨{ tx_hash := freshTxHash st, campaign_id := none,
                     service := service, amount_cents := t.amount_cents,
                     payer := toString p.id, source := .user,
                     status := .settled }, rfl, rfl, rfl⟩⟩
              · rw [if_neg hsig] at h
                exfalso
                simp at h

/-- C4: every transition of the Gate Orchestrator to the ALLOWED terminal
state corresponds to exactly one ledger mutation: either a single
successful campaign debit (token store untouched) or a single consumed
challenge token (campaign store untouched), each paired with exactly one
new settled payment record — never an allowed call without a recorded
economic event. -/
theorem allowed_has_economic_event {st : Engine} {p : Profile}
    {service : String} {proofOpt : Option PaymentProof} {now : Nat}
    {b : Bool} {st' : Engine}
    (h : runGate st p service proofOpt now = (.allowed b, st')) :
    (∃ c ∈ st.campaigns,
      debit_campaign st.campaigns c.id c.subsidy_per_call_cents = .ok st'.campaigns ∧
      st'.tokens = st.tokens ∧
      ∃ r : PaymentRecord, r.source = .sponsor ∧ r.status = .settled ∧
        r.campaign_id = some c.id ∧ r.amount_cents = c.subsidy_per_call_cents ∧
        st'.payments = r :: st.payments) ∨
    (∃ t ∈ st.tokens, t.consumed = false ∧
      st'.campaigns = st.campaigns ∧
      st'.tokens = consumeToken st.tokens t.tokenId ∧
      ∃ r : PaymentRecord, r.source = .user ∧ r.status = .settled ∧
        st'.payments = r :: st.payments) := by
  unfold runGate at h
  cases hsel : selectCampaign st.completions p service st.campaigns with
  | none =>
      rw [hsel] at h
      dsimp only at h
      exact Or.inr (directPath_allowed h)
  | some c =>
      rw [hsel] at h
      dsimp only at h
      cases hd : debit_campaign st.campaigns c.id c.subsidy_per_call_cents with
      | ok cs =>
          rw [hd] at h
          dsimp only at h
          injection h with hfst hsnd
          subst hsnd
          obtain ⟨hmem, -, -⟩ := selectCampaign_some hsel
          exact Or.inl ⟨c, hmem, hd, rfl,
            ⟨{ tx_hash := freshTxHash st, campaign_id := some c.id,
               service := service, amount_cents := c.subsidy_per_call_cents,
               payer := c.sponsor, source := .sponsor, status := .settled },
             rfl, rfl, rfl, rfl, rfl⟩⟩
      | insufficientBudget =>
          rw [hd] at h
          dsimp only at h
          exact Or.inr (directPath_allowed h)
      | notFound =>
          rw [hd] at h
          dsimp only at h
          exact Or.inr (directPath_allowed h)

/-- Witness for C4: the first sponsored demo call is allowed and exhibits
its single economic event. -/
theorem allowed_has_economic_event_witness :
    (∃ c ∈ demoEngine.campaigns,
      debit_campaign demoEngine.campaigns c.id c.subsidy_per_call_cents =
        .ok (runGate demoEngine demoProfile "scraping" none 0).2.campaigns ∧
      (runGate demoEngine demoProfile "scraping" none 0).2.tokens = demoEngine.tokens ∧
      ∃ r : PaymentRecord, r.source = .sponsor ∧ r.status = .settled ∧
        r.campaign_id = some c.id ∧ r.amount_cents = c.subsidy_per_call_cents ∧
        (runGate demoEngine demoProfile "scraping" none 0).2.payments =
          r :: demoEngine.payments) ∨
    (∃ t ∈ demoEngine.tokens, t.consumed = false ∧
      (runGate demoEngine demoProfile "scraping" none 0).2.campaigns =
        demoEngine.campaigns ∧
      (runGate demoEngine demoProfile "scraping" none 0).2.tokens =
        consumeToken demoEngine.tokens t.tokenId ∧
      ∃ r : PaymentRecord, r.source = .user ∧ r.status = .settled ∧
        (runGate demoEngine demoProfile "scraping" none 0).2.payments =
          r :: demoEngine.payments) :=
  allowed_has_economic_event
    (by decide : runGate demoEngine demoProfile "scraping" none 0 =
      (.allowed true, (runGate demoEngine demoProfile "scraping" none 0).2))

/-- C5: a challenge token is single-use. A consumed token presented on the
direct-pay path is rejected as already-consumed with the engine state
untouched; an accepted proof atomically marks the token consumed, records
a settled PaymentRecord with source user and allows the call, and
presenting the very same token again afterwards is rejected as
already-consumed with no further state change — never processed a second
time. -/
theorem token_single_use :
    (∀ (st : Engine) (p : Profile) (service : String) (pr : PaymentProof)
        (now : Nat) (t : ChallengeToken),
      selectCampaign st.completions p service st.campaigns = none →
      st.tokens.find? (fun u => u.tokenId == pr.tokenId) = some t →
      ¬ t.expiry < now → t.consumed = true →
      runGate st p service (some pr) now = (.denied .tokenConsumed, st)) ∧
    (∀ (st : Engine) (p : Profile) (service : String) (pr : PaymentProof)
        (now : Nat) (t : ChallengeToken),
      selectCampaign st.completions p service st.campaigns = none →
      st.tokens.find? (fun u => u.tokenId == pr.tokenId) = some t →
      ¬ t.expiry < now → t.consumed = false → pr.sigValid = true →
      ∃ st₁,
        runGate st p service (some pr) now = (.allowed false, st₁) ∧
        st₁.campaigns = st.campaigns ∧
        st₁.tokens = consumeToken st.tokens t.tokenId ∧
        (∃ r : PaymentRecord, r.source = .user ∧ r.status = .settled ∧
          st₁.payments = r :: st.payments) ∧
        runGate st₁ p service (some pr) now = (.denied .tokenConsumed, st₁)) := by
  constructor
  · intro st p service pr now t hsel hfind hexp hcons
    unfold runGate
    rw [hsel]
    dsimp only
    unfold directPath
    dsimp only
    rw [hfind]
    dsimp only
    rw [if_neg hexp, if_pos hcons]
  · intro st p service pr now t hsel hfind hexp hcons hsig
    have hcons' : ¬ t.consumed = true := by
      rw [hcons]
      intro hcontra
      cases hcontra
    have hstep : runGate st p service (some pr) now =
        (.allowed false,
          { st with tokens := consumeToken st.tokens t.tokenId,
                    payments :=
                      { tx_hash := freshTxHash st, campaign_id := none,
                        service := service, amount_cents := t.amount_cents,
                        payer := toString p.id, source := .user,
                        status := .settled } :: st.payments,
                    nextNonce := st.nextNonce + 1 }) := by
      unfold runGate
      rw [hsel]
      dsimp only
      unfold directPath
      dsimp only
      rw [hfind]
      dsimp only
      rw [if_neg hexp, if_neg hcons', if_pos hsig]
    have hpred : (t.tokenId == pr.tokenId) = true :=
      find?_some_pred (fun u : ChallengeToken => u.tokenId == pr.tokenId) hfind
    have hfind₁ : (consumeToken st.tokens t.tokenId).find?
        (fun u => u.tokenId == pr.tokenId) = some { t with consumed := true } := by
      rw [find?_consumeToken, hfind]
      simp
    refine ⟨_, hstep, rfl, rfl,
      ⟨{ tx_hash := freshTxHash st, campaign_id := none, service := service,
         amount_cents := t.amount_cents, payer := toString p.id,
         source := .user, status := .settled }, rfl, rfl, rfl⟩, ?_⟩
    unfold runGate
    dsimp only
    rw [hsel]
    dsimp only
    unfold directPath
    dsimp only
    rw [hfind₁]
    dsimp only
    rw [if_neg hexp, if_pos rfl]

/-- Witness for C5: a concrete unconsumed token is accepted once and the
replay with the same token is rejected as already-consumed. -/
theorem token_single_use_witness :
    ∃ st₁,
      runGate (⟨[], [], [], [⟨7, "design", 5, 300, false⟩], 8⟩ : Engine)
          demoProfile "design" (some ⟨7, true⟩) 0 = (.allowed false, st₁) ∧
      st₁.campaigns = [] ∧
      st₁.tokens = consumeToken [⟨7, "design", 5, 300, false⟩] 7 ∧
      (∃ r : PaymentRecord, r.source = .user ∧ r.status = .settled ∧
        st₁.payments = r :: []) ∧
      runGate st₁ demoProfile "design" (some ⟨7, true⟩) 0 =
        (.denied .tokenConsumed, st₁) :=
  token_single_use.2 ⟨[], [], [], [⟨7, "design", 5, 300, false⟩], 8⟩
    demoProfile "design" ⟨7, true⟩ 0 ⟨7, "design", 5, 300, false⟩
    (by decide) (by decide) (by decide) (by decide) (by decide)

/-- C6: on proof failure the ledger is unchanged — an invalid proof against
a live token is rejected with the payment-rejected status and the engine
state (campaign budgets and payment records included) is exactly the input
state, so no settled record is written and no budget is mutated; an
expired token instead yields a fresh challenge carrying a brand-new token
id, not a reuse of the old token, again without touching campaigns or
payments. -/
theorem proof_failure_ledger_unchanged :
    (∀ (st : Engine) (p : Profile) (service : String) (pr : PaymentProof)
        (now : Nat) (t : ChallengeToken),
      selectCampaign st.completions p service st.campaigns = none →
      st.tokens.find? (fun u => u.tokenId == pr.tokenId) = some t →
      ¬ t.expiry < now → t.consumed = false → pr.sigValid = false →
      runGate st p service (some pr) now = (.denied .proofRejected, st)) ∧
    (∀ (st : Engine) (p : Profile) (service : String) (pr : PaymentProof)
        (now : Nat) (t : ChallengeToken),
      selectCampaign st.completions p service st.campaigns = none →
      st.tokens.find? (fun u => u.tokenId == pr.tokenId) = some t →
      t.expiry < now →
      ∃ tok st',
        runGate st p service (some pr) now = (.paymentRequired tok, st') ∧
        tok.tokenId = st.nextNonce ∧
        st'.campaigns = st.campaigns ∧
        st'.payments = st.payments ∧
        ((∀ u ∈ st.tokens, u.tokenId < st.nextNonce) →
          ∀ u ∈ st.tokens, u.tokenId ≠ tok.tokenId)) := by
  constructor
  · intro st p service pr now t hsel hfind hexp hcons hsig
    have hcons' : ¬ t.consumed = true := by
      rw [hcons]
      intro hcontra
      cases hcontra
    have hsig' : ¬ pr.sigValid = true := by
      rw [hsig]
      intro hcontra
      cases hcontra
    unfold runGate
    rw [hsel]
    dsimp only
    unfold directPath
    dsimp only
    rw [hfind]
    dsimp only
    rw [if_neg hexp, if_neg hcons', if_neg hsig']
  · intro st p service pr now t hsel hfind hexp
    have hstep : runGate st p service (some pr) now =
        (.paymentRequired
          ⟨st.nextNonce, service, directPrice service, now + tokenTtl, false⟩,
          { st with
              tokens :=
                ⟨st.nextNonce, service, directPrice service, now + tokenTtl,
                  false⟩ :: st.tokens,
              nextNonce := st.nextNonce + 1 }) := by
      unfold runGate
      rw [hsel]
      dsimp only
      unfold directPath
      dsimp only
      rw [hfind]
      dsimp only
      rw [if_pos hexp]
      rfl
    refine ⟨_, _, hstep, rfl, rfl, rfl, ?_⟩
    intro hub u hu heq
    exact absurd heq (Nat.ne_of_lt (hub u hu))

/-- Witness for C6: a concrete invalid proof is rejected leaving the engine
untouched, and a concrete expired token yields a fresh challenge with a new
token id. -/
theorem proof_failure_ledger_unchanged_witness :
    (runGate (⟨[], [], [], [⟨7, "design", 5, 300, false⟩], 8⟩ : Engine)
        demoProfile "design" (some ⟨7, false⟩) 0 =
      (.denied .proofRejected,
        (⟨[], [], [], [⟨7, "design", 5, 300, false⟩], 8⟩ : Engine))) ∧
    (∃ tok st',
      runGate (⟨[], [], [], [⟨7, "design", 5, 300, false⟩], 8⟩ : Engine)
          demoProfile "design" (some ⟨7, true⟩) 999 = (.paymentRequired tok, st') ∧
      tok.tokenId = 8 ∧
      st'.campaigns = [] ∧
      st'.payments = [] ∧
      ((∀ u ∈ [(⟨7, "design", 5, 300, false⟩ : ChallengeToken)], u.tokenId < 8) →
        ∀ u ∈ [(⟨7, "design", 5, 300, false⟩ : ChallengeToken)],
          u.tokenId ≠ tok.tokenId)) := by
  constructor
  · exact proof_failure_ledger_unchanged.1
      ⟨[], [], [], [⟨7, "design", 5, 300, false⟩], 8⟩ demoProfile "design"
      ⟨7, false⟩ 0 ⟨7, "design", 5, 300, false⟩
      (by decide) (by decide) (by decide) (by decide) (by decide)
  · exact proof_failure_ledger_unchanged.2
      ⟨[], [], [], [⟨7, "design", 5, 300, false⟩], 8⟩ demoProfile "design"
      ⟨7, true⟩ 999 ⟨7, "design", 5, 300, false⟩
      (by decide) (by decide) (by decide)

set_option maxRecDepth 200000 in
/-- C7: for the README campaign with budget 500¢ and subsidy 5¢ per call
and the eligible demo profile, exactly 100 consecutive sponsored calls are
allowed; the 101st call finds the sponsor path exhausted (the evaluator
reports the budget-exhausted reason for the campaign) and falls through to
a direct-pay payment-required challenge instead of a hard failure. -/
theorem budget_500_scenario :
    (∀ k, k < 100 → (demoStep (demoRun k)).1 = .allowed true) ∧
    (demoStep (demoRun 100)).1 =
      .paymentRequired ⟨100, "scraping", 5, 300, false⟩ ∧
    ((demoRun 100).campaigns.find? (fun c => c.id == 1)).map
        (fun c => evaluate (demoRun 100).completions demoProfile c "scraping") =
      some (.ineligible .budgetExhausted) := by
  refine ⟨by decide, by decide, by decide⟩

/-- Witness for C7: the hundredth sponsored call (index 99) is still
allowed. -/
theorem budget_500_scenario_witness :
    (demoStep (demoRun 99)).1 = .allowed true :=
  budget_500_scenario.1 99 (by decide)
